import Mathlib

/-!
Verification development for the ALPM (Arch Linux Package Management)
metadata library: validated scalar types, the version comparison engine,
and the SRCINFO parse/merge pipeline.

The repository ships the Python binding surface and its test suite; the
core operations live in the bound native library.  Every definition below
that embeds such an operation is modelled from the specification (and is
marked as such in its doc comment); the test suite pins the concrete
behavior the theorems check.
-/

namespace Alpm

/-- A comparator together with the laws making it a strict total order on
its carrier (orientation under `swap`, and transitivity of the strict and
the equivalence parts). -/
structure LawfulCmp {α : Type} (c : α → α → Ordering) : Prop where
  symm : ∀ a b, (c a b).swap = c b a
  lt_trans : ∀ {a b d}, c a b = .lt → c b d = .lt → c a d = .lt
  lt_of_lt_of_eq : ∀ {a b d}, c a b = .lt → c b d = .eq → c a d = .lt
  lt_of_eq_of_lt : ∀ {a b d}, c a b = .eq → c b d = .lt → c a d = .lt
  eq_trans : ∀ {a b d}, c a b = .eq → c b d = .eq → c a d = .eq

/-- Comparator on natural numbers. -/
def cmpNat (a b : Nat) : Ordering :=
  if a < b then .lt else if a = b then .eq else .gt

/-- Lexicographic comparator on lists, element-wise by `c`; a strict
prefix sorts below the longer list (a missing segment sorts before a
present one). -/
def cmpList {α : Type} (c : α → α → Ordering) : List α → List α → Ordering
  | [], [] => .eq
  | [], _ :: _ => .lt
  | _ :: _, [] => .gt
  | a :: as, b :: bs => (c a b).then (cmpList c as bs)

/-- Comparator on optional values: an absent value sorts strictly below
any present one. -/
def cmpOption {α : Type} (c : α → α → Ordering) :
    Option α → Option α → Ordering
  | none, none => .eq
  | none, some _ => .lt
  | some _, none => .gt
  | some a, some b => c a b

/-! ### Version comparison engine

Modelled from the spec (the comparison engine itself is part of the bound
native library and not shipped in the repository): a version string is
split into alternating runs of digits and letters; separator characters
(`.`, `_`, `+` — any non-alphanumeric byte) delimit runs and are otherwise
ignored; numeric runs compare numerically with leading zeros ignored,
alphabetic runs compare lexically by byte value, a purely numeric segment
outranks an alphabetic one at the same position, and a missing segment
sorts before a present one. -/

/-- One segment of a version string: a run of letters or the numeric value
of a run of digits. -/
inductive Segment
  | alpha (s : List Char)
  | num (n : Nat)
deriving DecidableEq

/-- Byte-value comparator on characters. -/
def cmpChar (a b : Char) : Ordering := cmpNat a.toNat b.toNat

/-- Comparator on version segments: alphabetic runs lexically, numeric
runs numerically, and a numeric segment outranks an alphabetic one. -/
def segCmp : Segment → Segment → Ordering
  | .alpha a, .alpha b => cmpList cmpChar a b
  | .alpha _, .num _ => .lt
  | .num _, .alpha _ => .gt
  | .num a, .num b => cmpNat a b

/-- Decimal value of an ASCII digit character. -/
def digitVal (ch : Char) : Nat := ch.toNat - 48

/-- Modelled from the spec: single pass over the characters of a version
string, accumulating the current run (`cur`) and emitting a finished
segment whenever the character class changes; separator characters close
the current run and are dropped. -/
def segsGo : List Char → Option Segment → List Segment
  | [], cur =>
    match cur with
    | none => []
    | some s => [s]
  | ch :: rest, cur =>
    if ch.isDigit then
      match cur with
      | some (.num n) => segsGo rest (some (.num (10 * n + digitVal ch)))
      | some (.alpha a) => .alpha a :: segsGo rest (some (.num (digitVal ch)))
      | none => segsGo rest (some (.num (digitVal ch)))
    else if ch.isAlpha then
      match cur with
      | some (.alpha a) => segsGo rest (some (.alpha (a ++ [ch])))
      | some (.num n) => .num n :: segsGo rest (some (.alpha [ch]))
      | none => segsGo rest (some (.alpha [ch]))
    else
      match cur with
      | some s => s :: segsGo rest none
      | none => segsGo rest none

/-- The segment sequence of a version string. -/
def versionSegments (v : String) : List Segment := segsGo v.data none

/-- A package version: the raw string is preserved verbatim for display;
only comparison interprets it. -/
structure PackageVersion where
  ver : String
deriving DecidableEq

/-- The vercmp comparator on package versions. -/
def cmpPackageVersion (a b : PackageVersion) : Ordering :=
  cmpList segCmp (versionSegments a.ver) (versionSegments b.ver)

/-- A package release: non-negative `major` with optional non-negative
`minor`. -/
structure PackageRelease where
  major : Nat
  minor : Option Nat
deriving DecidableEq

/-- Modelled from the spec: releases compare major first, then minor,
an absent minor sorting strictly below any present minor. -/
def cmpPackageRelease (a b : PackageRelease) : Ordering :=
  (cmpNat a.major b.major).then (cmpOption cmpNat a.minor b.minor)

/-- An epoch: a positive integer (positivity is enforced by its parser). -/
structure Epoch where
  value : Nat
deriving DecidableEq

/-- A full version tuple `(Epoch?, PackageVersion, PackageRelease?)`. -/
structure FullVersion where
  epoch : Option Epoch
  pkgver : PackageVersion
  pkgrel : Option PackageRelease
deriving DecidableEq

/-- An absent epoch is treated as `0` for comparison. -/
def epochValue : Option Epoch → Nat
  | none => 0
  | some e => e.value

/-- Modelled from the spec: full versions compare epoch first (absent
epoch treated as 0), then the vercmp order on the version string, then
the release, an absent release sorting strictly below a present one. -/
def cmpFullVersion (a b : FullVersion) : Ordering :=
  (cmpNat (epochValue a.epoch) (epochValue b.epoch)).then
    ((cmpPackageVersion a.pkgver b.pkgver).then
      (cmpOption cmpPackageRelease a.pkgrel b.pkgrel))

/-! ### Decimal rendering and parsing

Shared by the `Epoch` and `PackageRelease` scalar types: canonical decimal
rendering of a natural number and parsing of decimal digit strings. -/

/-- The ASCII digit character for a decimal digit. -/
def digitChar (d : Nat) : Char := Char.ofNat (48 + d)

/-- Render a natural number in decimal, most significant digit first.
The first argument is recursion fuel (any value above the digit count
works; `renderNat` passes `n + 1`). -/
def natToCharsAux : Nat → Nat → List Char → List Char
  | 0, _, acc => acc
  | fuel + 1, n, acc =>
    if n < 10 then digitChar n :: acc
    else natToCharsAux fuel (n / 10) (digitChar (n % 10) :: acc)

/-- Canonical decimal rendering of a natural number. -/
def renderNat (n : Nat) : List Char := natToCharsAux (n + 1) n []

/-- Parse a non-empty all-digit character list as a decimal number. -/
def parseNatChars (s : List Char) : Option Nat :=
  if s = [] then none
  else if s.all Char.isDigit then
    some (s.foldl (fun n ch => 10 * n + digitVal ch) 0)
  else none

/-! ### Error taxonomy and validated scalar types

Modelled from the spec: every scalar constructor either returns a valid
immutable value or fails with a `scalarValidation` error; the SRCINFO
parser fails with a `parseError`; the merge engine with a `mergeError`;
and only an unreadable file yields an `ioError`. -/

/-- The four error kinds of the ALPM-domain error taxonomy. -/
inductive ErrorKind
  | scalarValidation
  | parseError
  | mergeError
  | ioError
deriving DecidableEq

/-- Characters admitted in a package version string. -/
def versionChar (ch : Char) : Bool :=
  ch.isAlphanum || ch = '.' || ch = '_' || ch = '+'

/-- Modelled from the spec: a `PackageVersion` string is non-empty, drawn
from `[A-Za-z0-9._+]`, and must not start with `.`, `_`, or `+` (so its
first character is alphanumeric). -/
def validPackageVersionChars : List Char → Bool
  | [] => false
  | ch :: rest => ch.isAlphanum && rest.all versionChar

/-- Parse a package version string; the raw string is preserved verbatim. -/
def parsePackageVersion (s : String) : Except ErrorKind PackageVersion :=
  if validPackageVersionChars s.data then .ok ⟨s⟩
  else .error .scalarValidation

/-- Canonical rendering of a package version: the raw string. -/
def renderPackageVersion (v : PackageVersion) : String := v.ver

/-- Modelled from the spec: `Epoch.from_str` parses a decimal string and
rejects a non-positive value. -/
def parseEpoch (s : String) : Except ErrorKind Epoch :=
  match parseNatChars s.data with
  | none => .error .scalarValidation
  | some 0 => .error .scalarValidation
  | some (n + 1) => .ok ⟨n + 1⟩

/-- Canonical rendering of an epoch: its decimal value. -/
def renderEpoch (e : Epoch) : String := String.mk (renderNat e.value)

/-- Split a character list at the first `.`, if any. -/
def splitDot : List Char → List Char × Option (List Char)
  | [] => ([], none)
  | ch :: rest =>
    if ch = '.' then ([], some rest)
    else
      let p := splitDot rest
      (ch :: p.1, p.2)

/-- Modelled from the spec: a `PackageRelease` parses as `"major"` or
`"major.minor"` with both components decimal numbers. -/
def parsePackageRelease (s : String) : Except ErrorKind PackageRelease :=
  match splitDot s.data with
  | (a, none) =>
    match parseNatChars a with
    | some m => .ok ⟨m, none⟩
    | none => .error .scalarValidation
  | (a, some b) =>
    match parseNatChars a, parseNatChars b with
    | some m, some k => .ok ⟨m, some k⟩
    | _, _ => .error .scalarValidation

/-- Canonical rendering of a package release: `"major"` or
`"major.minor"`. -/
def renderPackageRelease (r : PackageRelease) : String :=
  match r.minor with
  | none => String.mk (renderNat r.major)
  | some k => String.mk (renderNat r.major ++ '.' :: renderNat k)

/-- A relative path: stored verbatim; must not start with `/`. -/
structure RelativePath where
  path : String
deriving DecidableEq

/-- Modelled from the spec: any string not starting with `/` is a valid
relative path (`~/...` and `../...` forms included). -/
def parseRelativePath (s : String) : Except ErrorKind RelativePath :=
  match s.data with
  | '/' :: _ => .error .scalarValidation
  | _ => .ok ⟨s⟩

/-- Canonical rendering of a relative path: the raw string. -/
def renderRelativePath (p : RelativePath) : String := p.path

/-- The closed set of build environment option names. -/
def buildEnvOptionNames : List String :=
  ["ccache", "buildflags", "check", "color", "distcc", "makeflags", "sign"]

/-- The closed set of package option names. -/
def packageOptionNames : List String :=
  ["strip", "docs", "libtool", "staticlibs", "emptydirs", "zipman",
    "debug", "autodeps", "lto", "purge"]

/-- A build environment option: a named flag and whether it is on
(the Python attribute is named `on`). -/
structure BuildEnvironmentOption where
  name : String
  isOn : Bool
deriving DecidableEq

/-- A package option: a named flag and whether it is on
(the Python attribute is named `on`). -/
structure PackageOption where
  name : String
  isOn : Bool
deriving DecidableEq

/-- Whether an option string carries the `!` (off) marker. -/
def isNegated (s : String) : Bool :=
  match s.data with
  | [] => false
  | ch :: _ => ch = '!'

/-- The bare option name: the string with a leading `!` stripped. -/
def bareNameOf (s : String) : String :=
  match s.data with
  | [] => s
  | ch :: rest => if ch = '!' then String.mk rest else s

/-- Modelled from the spec: the bare name means on, the `!`-prefixed name
means off; the bare name must belong to the closed set. -/
def parseBuildEnvOption (s : String) :
    Except ErrorKind BuildEnvironmentOption :=
  if bareNameOf s ∈ buildEnvOptionNames then
    .ok ⟨bareNameOf s, !isNegated s⟩
  else .error .scalarValidation

/-- Canonical rendering of a build environment option. -/
def renderBuildEnvOption (o : BuildEnvironmentOption) : String :=
  if o.isOn then o.name else String.mk ('!' :: o.name.data)

/-- Modelled from the spec: same shape as `parseBuildEnvOption`, against
the package option name set. -/
def parsePackageOption (s : String) : Except ErrorKind PackageOption :=
  if bareNameOf s ∈ packageOptionNames then
    .ok ⟨bareNameOf s, !isNegated s⟩
  else .error .scalarValidation

/-- Canonical rendering of a package option. -/
def renderPackageOption (o : PackageOption) : String :=
  if o.isOn then o.name else String.mk ('!' :: o.name.data)

/-- Either kind of makepkg option. -/
inductive MakepkgOption
  | buildEnv (o : BuildEnvironmentOption)
  | package (o : PackageOption)
deriving DecidableEq

/-- Modelled from the spec: `parse_makepkg_option` tries both closed sets
and returns whichever variant matches, failing when neither does. -/
def parseMakepkgOption (s : String) : Except ErrorKind MakepkgOption :=
  match parseBuildEnvOption s with
  | .ok o => .ok (.buildEnv o)
  | .error _ =>
    match parsePackageOption s with
    | .ok o => .ok (.package o)
    | .error e => .error e

/-- The closed enumeration of ELF architecture formats. -/
inductive ElfArchitectureFormat
  | bit32
  | bit64
deriving DecidableEq

/-- Modelled from the spec: `ElfArchitectureFormat.from_str` accepts
exactly the literal strings `"32"` and `"64"`. -/
def parseElfArchitectureFormat (s : String) :
    Except ErrorKind ElfArchitectureFormat :=
  if s = "32" then .ok .bit32
  else if s = "64" then .ok .bit64
  else .error .scalarValidation

/-! ### Observable Python exception classes

The binding layer maps domain failures to Python exception classes.  The
table below is transcribed from the repository's test suite
(`tests/types/test_version.py`, `test_env.py`, `test_path.py`,
`test_system.py`, `tests/srcinfo/test_source_info_v1.py`), which pins the
class raised at each failure site. -/

/-- A Python exception class observed at the binding boundary.  Distinct
constructors are the distinct class names the tests catch; `valueError`
is the Python built-in `ValueError`, not an ALPM-defined type. -/
inductive PyExceptionClass
  | alpmError
  | sourceInfoError
  | valueError
deriving DecidableEq, Fintype

/-- An ALPM-domain failure site exercised by the test suite. -/
inductive AlpmFailure
  | packageVersionInvalid
  | epochNonPositive
  | schemaVersionInvalid
  | buildEnvOptionUnknown
  | makepkgOptionUnknown
  | relativePathAbsolute
  | elfArchitectureFormatUnknown
  | srcinfoParseFailure
deriving DecidableEq, Fintype

/-- The exception class each failure site raises, transcribed from the
tests: `PackageVersion`, `SchemaVersion`, option and path validation
raise `ALPMError`; `Epoch(0)` and `ElfArchitectureFormat.from_str` on an
invalid string raise the built-in `ValueError`; SRCINFO parse failures
raise `SourceInfoError`. -/
def raisedException : AlpmFailure → PyExceptionClass
  | .packageVersionInvalid => .alpmError
  | .epochNonPositive => .valueError
  | .schemaVersionInvalid => .alpmError
  | .buildEnvOptionUnknown => .alpmError
  | .makepkgOptionUnknown => .alpmError
  | .relativePathAbsolute => .alpmError
  | .elfArchitectureFormatUnknown => .valueError
  | .srcinfoParseFailure => .sourceInfoError

/-! ### SRCINFO tokenizer, parser and merge engine

Modelled from the spec: the engine itself is part of the bound native
library and not shipped in the repository.  Dependency-like and other
repeatable field values are kept as opaque strings here — their
internal shape (relation version constraints etc.) plays no role in the
block grouping and merge semantics the claims are about. -/

/-- The closed set of target architectures. -/
inductive Architecture
  | any
  | x86_64
  | x86_64_v2
  | x86_64_v3
  | x86_64_v4
  | aarch64
  | arm
  | armv6h
  | armv7h
  | i386
  | i486
  | i686
  | pentium4
  | riscv32
  | riscv64
deriving DecidableEq

/-- The name of an architecture as it appears in SRCINFO text. -/
def archName : Architecture → String
  | .any => "any"
  | .x86_64 => "x86_64"
  | .x86_64_v2 => "x86_64_v2"
  | .x86_64_v3 => "x86_64_v3"
  | .x86_64_v4 => "x86_64_v4"
  | .aarch64 => "aarch64"
  | .arm => "arm"
  | .armv6h => "armv6h"
  | .armv7h => "armv7h"
  | .i386 => "i386"
  | .i486 => "i486"
  | .i686 => "i686"
  | .pentium4 => "pentium4"
  | .riscv32 => "riscv32"
  | .riscv64 => "riscv64"

/-- All architectures, for suffix recognition and value parsing. -/
def architectureList : List Architecture :=
  [.any, .x86_64, .x86_64_v2, .x86_64_v3, .x86_64_v4, .aarch64, .arm,
    .armv6h, .armv7h, .i386, .i486, .i686, .pentium4, .riscv32, .riscv64]

/-- Parse an architecture value against the closed set. -/
def parseArchitecture (s : String) : Option Architecture :=
  architectureList.find? (fun a => archName a == s)

/-- Split a character list on a separator character. -/
def splitCharAux (c : Char) : List Char → List Char → List (List Char)
  | [], cur => [cur.reverse]
  | ch :: rest, cur =>
    if ch = c then cur.reverse :: splitCharAux c rest []
    else splitCharAux c rest (ch :: cur)

/-- Split a character list on a separator character (text → lines). -/
def splitOnChar (c : Char) (s : List Char) : List (List Char) :=
  splitCharAux c s []

/-- Space or tab. -/
def isWsChar (ch : Char) : Bool := ch = ' ' || ch = '\t'

/-- Trim leading and trailing spaces/tabs. -/
def trimChars (s : List Char) : List Char :=
  ((s.dropWhile isWsChar).reverse.dropWhile isWsChar).reverse

/-- Split a line at the first ` = ` separator, if any. -/
def splitKeyValue : List Char → Option (List Char × List Char)
  | [] => none
  | ' ' :: '=' :: ' ' :: rest => some ([], rest)
  | ch :: rest =>
    match splitKeyValue rest with
    | none => none
    | some (k, v) => some (ch :: k, v)

/-- Strip a given suffix, requiring a non-empty remainder. -/
def stripOneSuffix (suf k : List Char) : Option (List Char) :=
  if suf.isSuffixOf k then
    let pre := k.take (k.length - suf.length)
    if pre = [] then none else some pre
  else none

/-- Recognize an architecture suffix `_<arch>` on a key; an unrecognized
suffix stays part of the key name. -/
def keyArchSplit (k : List Char) : List Char × Option Architecture :=
  match architectureList.findSome? (fun a =>
      (stripOneSuffix ('_' :: (archName a).data) k).map (fun pre => (pre, a))) with
  | some (pre, a) => (pre, some a)
  | none => (k, none)

/-- One tokenized SRCINFO line: blank/comment, or a key/value record with
an optional architecture suffix. -/
inductive LineTok
  | blank
  | kv (key : String) (arch : Option Architecture) (value : String)
deriving DecidableEq

/-- Tokenize one line: skip blank and comment lines, require the
`key = value` shape otherwise. -/
def tokenizeLine (l : List Char) : Except ErrorKind LineTok :=
  match trimChars l with
  | [] => .ok .blank
  | '#' :: _ => .ok .blank
  | t =>
    match splitKeyValue t with
    | none => .error .parseError
    | some (k, v) =>
      match trimChars k with
      | [] => .error .parseError
      | kt =>
        let p := keyArchSplit kt
        .ok (.kv (String.mk p.1) p.2 (String.mk v))

/-- Tokenize every line, reporting the first malformed line. -/
def tokenizeAll : List (List Char) → Except ErrorKind (List LineTok)
  | [] => .ok []
  | l :: rest =>
    match tokenizeLine l with
    | .error e => .error e
    | .ok t =>
      match tokenizeAll rest with
      | .error e => .error e
      | .ok ts => .ok (t :: ts)

/-- The repeatable (list) fields of a package record. -/
inductive ListField
  | groups
  | license
  | depends
  | optdepends
  | provides
  | conflicts
  | replaces
  | options
  | backup
deriving DecidableEq

/-- Which SRCINFO key names a list field. -/
def listFieldOfKey (k : String) : Option ListField :=
  if k = "groups" then some .groups
  else if k = "license" then some .license
  else if k = "depends" then some .depends
  else if k = "optdepends" then some .optdepends
  else if k = "provides" then some .provides
  else if k = "conflicts" then some .conflicts
  else if k = "replaces" then some .replaces
  else if k = "options" then some .options
  else if k = "backup" then some .backup
  else none

/-- The `pkgbase` record: dense — required fields populated during
parsing, list fields defaulted to empty, architecture-specific additions
kept per (field, architecture). -/
structure PackageBase where
  name : String
  pkgver : Option PackageVersion
  pkgrel : Option PackageRelease
  epoch : Option Epoch
  pkgdesc : Option String
  url : Option String
  install : Option String
  changelog : Option String
  arch : List Architecture
  lists : ListField → List String
  archLists : ListField → Architecture → List String

/-- A `pkgname` override record: sparse — every field optional, absent
fields inherit from the base. -/
structure PackageOverride where
  name : String
  pkgdesc : Option String
  url : Option String
  install : Option String
  changelog : Option String
  arch : Option (List Architecture)
  lists : ListField → Option (List String)
  archLists : ListField → Architecture → Option (List String)

/-- Fresh base record for a `pkgbase = name` header. -/
def emptyBase (name : String) : PackageBase :=
  ⟨name, none, none, none, none, none, none, none, [],
    fun _ => [], fun _ _ => []⟩

/-- Fresh override record for a `pkgname = name` header. -/
def emptyOverride (name : String) : PackageOverride :=
  ⟨name, none, none, none, none, none, fun _ => none, fun _ _ => none⟩

/-- Apply one key/value record to the base under construction.  Scalar
values are validated by their scalar type's parser; unknown keys are
ignored for forward compatibility. -/
def applyBaseKey (b : PackageBase) (key : String) (arch : Option Architecture)
    (v : String) : Except ErrorKind PackageBase :=
  match arch with
  | none =>
    if key = "pkgver" then
      match parsePackageVersion v with
      | .error e => .error e
      | .ok ver => .ok { b with pkgver := some ver }
    else if key = "pkgrel" then
      match parsePackageRelease v with
      | .error e => .error e
      | .ok r => .ok { b with pkgrel := some r }
    else if key = "epoch" then
      match parseEpoch v with
      | .error e => .error e
      | .ok e => .ok { b with epoch := some e }
    else if key = "pkgdesc" then .ok { b with pkgdesc := some v }
    else if key = "url" then .ok { b with url := some v }
    else if key = "install" then
      match parseRelativePath v with
      | .error e => .error e
      | .ok _ => .ok { b with install := some v }
    else if key = "changelog" then
      match parseRelativePath v with
      | .error e => .error e
      | .ok _ => .ok { b with changelog := some v }
    else if key = "arch" then
      match parseArchitecture v with
      | none => .error .scalarValidation
      | some a => .ok { b with arch := b.arch ++ [a] }
    else
      match listFieldOfKey key with
      | some fld =>
        .ok { b with lists := fun f =>
          if f = fld then b.lists f ++ [v] else b.lists f }
      | none => .ok b
  | some ar =>
    match listFieldOfKey key with
    | some fld =>
      .ok { b with archLists := fun f a =>
        if f = fld ∧ a = ar then b.archLists f a ++ [v]
        else b.archLists f a }
    | none => .ok b

/-- Apply one key/value record to the override under construction. -/
def applyOverrideKey (p : PackageOverride) (key : String)
    (arch : Option Architecture) (v : String) :
    Except ErrorKind PackageOverride :=
  match arch with
  | none =>
    if key = "pkgdesc" then .ok { p with pkgdesc := some v }
    else if key = "url" then .ok { p with url := some v }
    else if key = "install" then
      match parseRelativePath v with
      | .error e => .error e
      | .ok _ => .ok { p with install := some v }
    else if key = "changelog" then
      match parseRelativePath v with
      | .error e => .error e
      | .ok _ => .ok { p with changelog := some v }
    else if key = "arch" then
      match parseArchitecture v with
      | none => .error .scalarValidation
      | some a => .ok { p with arch := some ((p.arch.getD []) ++ [a]) }
    else
      match listFieldOfKey key with
      | some fld =>
        .ok { p with lists := fun f =>
          if f = fld then some ((p.lists f).getD [] ++ [v]) else p.lists f }
      | none => .ok p
  | some ar =>
    match listFieldOfKey key with
    | some fld =>
      .ok { p with archLists := fun f a =>
        if f = fld ∧ a = ar then some ((p.archLists f a).getD [] ++ [v])
        else p.archLists f a }
    | none => .ok p

/-- A parsed SRCINFO document: exactly one base and the overrides in
order. -/
structure SourceInfo where
  base : PackageBase
  packages : List PackageOverride

/-- Final structural checks: the required base fields (version and
release) must be present. -/
def finishParse (b : PackageBase) (pkgs : List PackageOverride) :
    Except ErrorKind SourceInfo :=
  match b.pkgver, b.pkgrel with
  | some _, some _ => .ok ⟨b, pkgs⟩
  | _, _ => .error .parseError

/-- Consume the records of the current `pkgname` block. -/
def parsePkgLines (b : PackageBase) (done : List PackageOverride)
    (cur : PackageOverride) :
    List LineTok → Except ErrorKind SourceInfo
  | [] => finishParse b (done ++ [cur])
  | .blank :: rest => parsePkgLines b done cur rest
  | .kv k a v :: rest =>
    if k = "pkgname" && a.isNone then
      parsePkgLines b (done ++ [cur]) (emptyOverride v) rest
    else
      match applyOverrideKey cur k a v with
      | .error e => .error e
      | .ok c => parsePkgLines b done c rest

/-- Consume the records of the `pkgbase` block. -/
def parseBaseLines (b : PackageBase) :
    List LineTok → Except ErrorKind SourceInfo
  | [] => finishParse b []
  | .blank :: rest => parseBaseLines b rest
  | .kv k a v :: rest =>
    if k = "pkgname" && a.isNone then
      parsePkgLines b [] (emptyOverride v) rest
    else
      match applyBaseKey b k a v with
      | .error e => .error e
      | .ok b2 => parseBaseLines b2 rest

/-- The document must open with a `pkgbase = name` record. -/
def startParse : List LineTok → Except ErrorKind SourceInfo
  | [] => .error .parseError
  | .blank :: rest => startParse rest
  | .kv k a v :: rest =>
    if k = "pkgbase" && a.isNone then parseBaseLines (emptyBase v) rest
    else .error .parseError

/-- Parse SRCINFO text into a document, or fail with the first
violation. -/
def parseSourceInfo (text : String) : Except ErrorKind SourceInfo :=
  match tokenizeAll (splitOnChar '\n' text.data) with
  | .error e => .error e
  | .ok toks => startParse toks

/-- Resolve one list field: an override list replaces the base's list
wholesale when declared; the architecture-specific entries are appended
on top, never replacing. -/
def mergeListField (ov : Option (List String)) (baseL addL : List String) :
    List String :=
  ov.getD baseL ++ addL

/-- Override-if-set-else-base for scalar fields. -/
def mergeScalar (ov baseV : Option String) : Option String :=
  match ov with
  | some v => some v
  | none => baseV

/-- The fully resolved per-(package, architecture) view. -/
structure MergedPackage where
  name : String
  pkgdesc : Option String
  url : Option String
  install : Option String
  changelog : Option String
  lists : ListField → List String

/-- Modelled from the spec: merge a base with one override for one target
architecture; fails if the override declares an architecture outside the
base's set, or if the target is not among the valid architectures. -/
def mergePackage (b : PackageBase) (p : PackageOverride)
    (target : Architecture) : Except ErrorKind MergedPackage :=
  let archs := p.arch.getD b.arch
  if ¬∀ a ∈ archs, a ∈ b.arch then .error .mergeError
  else if target ∉ archs then .error .mergeError
  else .ok
    { name := p.name
      pkgdesc := mergeScalar p.pkgdesc b.pkgdesc
      url := mergeScalar p.url b.url
      install := mergeScalar p.install b.install
      changelog := mergeScalar p.changelog b.changelog
      lists := fun fld =>
        mergeListField (p.lists fld) (b.lists fld)
          ((p.archLists fld target).getD (b.archLists fld target)) }

/-- Look up an override by subpackage name. -/
def findPackage (si : SourceInfo) (name : String) : Option PackageOverride :=
  si.packages.find? (fun p => p.name == name)

/-- End-to-end helper: parse a document and return the fully merged
dependency list of one subpackage for one architecture. -/
def mergedDependsOf (doc pkg : String) (target : Architecture) :
    Except ErrorKind (List String) :=
  match parseSourceInfo doc with
  | .error e => .error e
  | .ok si =>
    match findPackage si pkg with
    | none => .error .mergeError
    | some p =>
      match mergePackage si.base p target with
      | .error e => .error e
      | .ok m => .ok (m.lists .depends)

/-- Modelled from the spec: `from_file` performs a single bounded read
(`none` models an unreadable file) and delegates to the in-memory parse
path; the unreadable file is the only source of an `ioError`. -/
def sourceInfoFromFile (contents : Option String) :
    Except ErrorKind SourceInfo :=
  match contents with
  | none => .error .ioError
  | some text => parseSourceInfo text

/-- Modelled from the spec: `from_pkgbuild` reads the script, delegates
to the external shell evaluator (`evalScript`) to materialize
SRCINFO-equivalent text, then follows the same parse path. -/
def sourceInfoFromPkgbuild (contents : Option String)
    (evalScript : String → String) : Except ErrorKind SourceInfo :=
  match contents with
  | none => .error .ioError
  | some text => parseSourceInfo (evalScript text)

/-- A `pkgbase = name` header record (any name). -/
def isPkgbaseTok : LineTok → Bool
  | .kv k a _ => k = "pkgbase" && a.isNone
  | .blank => false

/-- Whether a raw line tokenizes to a `pkgbase = name` header. -/
def lineIsPkgbase (l : List Char) : Bool :=
  match tokenizeLine l with
  | .ok t => isPkgbaseTok t
  | .error _ => false

/-- The end-to-end SRCINFO document of the merge claim: a `pkgbase` block
declaring `arch = x86_64`, `depends = default_dep` and
`depends_x86_64 = arch_default_dep`, and one `pkgname` block overriding
`depends = overridden` with no architecture suffix. -/
def fixtureC1 : String :=
  "pkgbase = example\n\tpkgver = 0.1.0\n\tpkgrel = 1\n\tarch = x86_64\n\tdepends = default_dep\n\tdepends_x86_64 = arch_default_dep\n\npkgname = example\n\tdepends = overridden\n"

instance {ε α : Type} [DecidableEq ε] [DecidableEq α] :
    DecidableEq (Except ε α) := fun a b =>
  match a, b with
  | .ok x, .ok y =>
    if h : x = y then .isTrue (by rw [h]) else .isFalse (by simp [h])
  | .ok _, .error _ => .isFalse (by simp)
  | .error _, .ok _ => .isFalse (by simp)
  | .error x, .error y =>
    if h : x = y then .isTrue (by rw [h]) else .isFalse (by simp [h])

/-! ### Theorems -/


/-! ### Ordering helpers

Small facts about `Ordering.swap` and `Ordering.then`, used to build the
lexicographic version comparator. -/

theorem ordering_swap_then (x y : Ordering) :
    (x.then y).swap = (x.swap).then (y.swap) := by
  cases x <;> rfl

theorem ordering_swap_eq_eq {x : Ordering} (h : x.swap = x) : x = .eq := by
  cases x <;> simp_all [Ordering.swap]

theorem then_eq_lt {x y : Ordering} :
    x.then y = .lt ↔ x = .lt ∨ (x = .eq ∧ y = .lt) := by
  cases x <;> simp [Ordering.then]

theorem then_eq_eq {x y : Ordering} :
    x.then y = .eq ↔ x = .eq ∧ y = .eq := by
  cases x <;> simp [Ordering.then]

theorem LawfulCmp.refl {α : Type} {c : α → α → Ordering} (hc : LawfulCmp c)
    (a : α) : c a a = .eq :=
  ordering_swap_eq_eq (hc.symm a a)

theorem LawfulCmp.gt_iff {α : Type} {c : α → α → Ordering} (hc : LawfulCmp c)
    (a b : α) : c a b = .gt ↔ c b a = .lt := by
  rw [← hc.symm b a]
  cases c b a <;> simp [Ordering.swap]

/-- Pull a lawful comparator back along a function. -/
theorem LawfulCmp.comap {α β : Type} {c : β → β → Ordering} (hc : LawfulCmp c)
    (f : α → β) : LawfulCmp (fun a b => c (f a) (f b)) where
  symm a b := hc.symm (f a) (f b)
  lt_trans h1 h2 := hc.lt_trans h1 h2
  lt_of_lt_of_eq h1 h2 := hc.lt_of_lt_of_eq h1 h2
  lt_of_eq_of_lt h1 h2 := hc.lt_of_eq_of_lt h1 h2
  eq_trans h1 h2 := hc.eq_trans h1 h2

/-- Lexicographic composition of two lawful comparators on the same
carrier is lawful. -/
theorem LawfulCmp.then_comp {α : Type} {c d : α → α → Ordering}
    (hc : LawfulCmp c) (hd : LawfulCmp d) :
    LawfulCmp (fun a b => (c a b).then (d a b)) where
  symm a b := by
    rw [ordering_swap_then, hc.symm, hd.symm]
  lt_trans {a b e} h1 h2 := by
    rw [then_eq_lt] at h1 h2 ⊢
    rcases h1 with h1 | ⟨h1, h1d⟩ <;> rcases h2 with h2 | ⟨h2, h2d⟩
    · exact Or.inl (hc.lt_trans h1 h2)
    · exact Or.inl (hc.lt_of_lt_of_eq h1 h2)
    · exact Or.inl (hc.lt_of_eq_of_lt h1 h2)
    · exact Or.inr ⟨hc.eq_trans h1 h2, hd.lt_trans h1d h2d⟩
  lt_of_lt_of_eq {a b e} h1 h2 := by
    rw [then_eq_lt] at h1 ⊢
    rw [then_eq_eq] at h2
    rcases h1 with h1 | ⟨h1, h1d⟩
    · exact Or.inl (hc.lt_of_lt_of_eq h1 h2.1)
    · exact Or.inr ⟨hc.eq_trans h1 h2.1, hd.lt_of_lt_of_eq h1d h2.2⟩
  lt_of_eq_of_lt {a b e} h1 h2 := by
    rw [then_eq_eq] at h1
    rw [then_eq_lt] at h2 ⊢
    rcases h2 with h2 | ⟨h2, h2d⟩
    · exact Or.inl (hc.lt_of_eq_of_lt h1.1 h2)
    · exact Or.inr ⟨hc.eq_trans h1.1 h2, hd.lt_of_eq_of_lt h1.2 h2d⟩
  eq_trans {a b e} h1 h2 := by
    rw [then_eq_eq] at h1 h2 ⊢
    exact ⟨hc.eq_trans h1.1 h2.1, hd.eq_trans h1.2 h2.2⟩

theorem cmpNat_eq_lt {a b : Nat} : cmpNat a b = .lt ↔ a < b := by
  unfold cmpNat
  by_cases h : a < b
  · simp [h]
  · by_cases h2 : a = b <;> simp [h, h2]

theorem cmpNat_eq_eq {a b : Nat} : cmpNat a b = .eq ↔ a = b := by
  unfold cmpNat
  by_cases h : a < b
  · simp [h]; omega
  · by_cases h2 : a = b <;> simp [h, h2]

theorem cmpNat_lawful : LawfulCmp cmpNat where
  symm a b := by
    unfold cmpNat
    rcases Nat.lt_trichotomy a b with h | h | h
    · simp [h, Nat.lt_asymm h, Nat.ne_of_gt h, Ordering.swap]
    · simp [h, Nat.lt_irrefl, Ordering.swap]
    · simp [h, Nat.lt_asymm h, Nat.ne_of_gt h, Ordering.swap]
  lt_trans h1 h2 := by
    rw [cmpNat_eq_lt] at h1 h2 ⊢; omega
  lt_of_lt_of_eq h1 h2 := by
    rw [cmpNat_eq_lt] at h1 ⊢; rw [cmpNat_eq_eq] at h2; omega
  lt_of_eq_of_lt h1 h2 := by
    rw [cmpNat_eq_eq] at h1; rw [cmpNat_eq_lt] at h2 ⊢; omega
  eq_trans h1 h2 := by
    rw [cmpNat_eq_eq] at h1 h2 ⊢; omega

theorem cmpList_lawful {α : Type} {c : α → α → Ordering} (hc : LawfulCmp c) :
    LawfulCmp (cmpList c) where
  symm a b := by
    induction a generalizing b with
    | nil => cases b <;> rfl
    | cons x xs ih =>
      cases b with
      | nil => rfl
      | cons y ys =>
        show ((c x y).then (cmpList c xs ys)).swap = _
        rw [ordering_swap_then, hc.symm, ih]
        rfl
  lt_trans {a b d} h1 h2 := by
    induction a generalizing b d with
    | nil =>
      cases b with
      | nil => exact absurd h1 (by simp [cmpList])
      | cons y ys =>
        cases d with
        | nil => exact absurd h2 (by simp [cmpList])
        | cons z zs => rfl
    | cons x xs ih =>
      cases b with
      | nil => exact absurd h1 (by simp [cmpList])
      | cons y ys =>
        cases d with
        | nil => exact absurd h2 (by simp [cmpList])
        | cons z zs =>
          show ((c x z).then (cmpList c xs zs)) = .lt
          rw [then_eq_lt]
          have h1' : (c x y).then (cmpList c xs ys) = .lt := h1
          have h2' : (c y z).then (cmpList c ys zs) = .lt := h2
          rw [then_eq_lt] at h1' h2'
          rcases h1' with h1' | ⟨h1', h1l⟩ <;> rcases h2' with h2' | ⟨h2', h2l⟩
          · exact Or.inl (hc.lt_trans h1' h2')
          · exact Or.inl (hc.lt_of_lt_of_eq h1' h2')
          · exact Or.inl (hc.lt_of_eq_of_lt h1' h2')
          · exact Or.inr ⟨hc.eq_trans h1' h2', ih h1l h2l⟩
  lt_of_lt_of_eq {a b d} h1 h2 := by
    induction a generalizing b d with
    | nil =>
      cases b with
      | nil => exact absurd h1 (by simp [cmpList])
      | cons y ys =>
        cases d with
        | nil => exact absurd h2 (by simp [cmpList])
        | cons z zs => rfl
    | cons x xs ih =>
      cases b with
      | nil => exact absurd h1 (by simp [cmpList])
      | cons y ys =>
        cases d with
        | nil => exact absurd h2 (by simp [cmpList])
        | cons z zs =>
          show ((c x z).then (cmpList c xs zs)) = .lt
          rw [then_eq_lt]
          have h1' : (c x y).then (cmpList c xs ys) = .lt := h1
          have h2' : (c y z).then (cmpList c ys zs) = .eq := h2
          rw [then_eq_lt] at h1'
          rw [then_eq_eq] at h2'
          rcases h1' with h1' | ⟨h1', h1l⟩
          · exact Or.inl (hc.lt_of_lt_of_eq h1' h2'.1)
          · exact Or.inr ⟨hc.eq_trans h1' h2'.1, ih h1l h2'.2⟩
  lt_of_eq_of_lt {a b d} h1 h2 := by
    induction a generalizing b d with
    | nil =>
      cases b with
      | nil =>
        cases d with
        | nil => exact absurd h2 (by simp [cmpList])
        | cons z zs => rfl
      | cons y ys => exact absurd h1 (by simp [cmpList])
    | cons x xs ih =>
      cases b with
      | nil => exact absurd h1 (by simp [cmpList])
      | cons y ys =>
        cases d with
        | nil => exact absurd h2 (by simp [cmpList])
        | cons z zs =>
          show ((c x z).then (cmpList c xs zs)) = .lt
          rw [then_eq_lt]
          have h1' : (c x y).then (cmpList c xs ys) = .eq := h1
          have h2' : (c y z).then (cmpList c ys zs) = .lt := h2
          rw [then_eq_eq] at h1'
          rw [then_eq_lt] at h2'
          rcases h2' with h2' | ⟨h2', h2l⟩
          · exact Or.inl (hc.lt_of_eq_of_lt h1'.1 h2')
          · exact Or.inr ⟨hc.eq_trans h1'.1 h2', ih h1'.2 h2l⟩
  eq_trans {a b d} h1 h2 := by
    induction a generalizing b d with
    | nil =>
      cases b with
      | nil =>
        cases d with
        | nil => rfl
        | cons z zs => exact absurd h2 (by simp [cmpList])
      | cons y ys => exact absurd h1 (by simp [cmpList])
    | cons x xs ih =>
      cases b with
      | nil => exact absurd h1 (by simp [cmpList])
      | cons y ys =>
        cases d with
        | nil => exact absurd h2 (by simp [cmpList])
        | cons z zs =>
          show ((c x z).then (cmpList c xs zs)) = .eq
          rw [then_eq_eq]
          have h1' : (c x y).then (cmpList c xs ys) = .eq := h1
          have h2' : (c y z).then (cmpList c ys zs) = .eq := h2
          rw [then_eq_eq] at h1' h2'
          exact ⟨hc.eq_trans h1'.1 h2'.1, ih h1'.2 h2'.2⟩

theorem cmpOption_lawful {α : Type} {c : α → α → Ordering}
    (hc : LawfulCmp c) : LawfulCmp (cmpOption c) where
  symm a b := by
    cases a <;> cases b <;> first | rfl | exact hc.symm _ _
  lt_trans {a b d} h1 h2 := by
    cases a <;> cases b <;> cases d <;>
      simp_all [cmpOption] <;> exact hc.lt_trans h1 h2
  lt_of_lt_of_eq {a b d} h1 h2 := by
    cases a <;> cases b <;> cases d <;>
      simp_all [cmpOption] <;> exact hc.lt_of_lt_of_eq h1 h2
  lt_of_eq_of_lt {a b d} h1 h2 := by
    cases a <;> cases b <;> cases d <;>
      simp_all [cmpOption] <;> exact hc.lt_of_eq_of_lt h1 h2
  eq_trans {a b d} h1 h2 := by
    cases a <;> cases b <;> cases d <;>
      simp_all [cmpOption] <;> exact hc.eq_trans h1 h2

theorem cmpChar_lawful : LawfulCmp cmpChar :=
  cmpNat_lawful.comap Char.toNat

theorem segCmp_lawful : LawfulCmp segCmp where
  symm a b := by
    cases a <;> cases b <;>
      first
        | rfl
        | exact (cmpList_lawful cmpChar_lawful).symm _ _
        | exact cmpNat_lawful.symm _ _
  lt_trans {a b d} h1 h2 := by
    cases a <;> cases b <;> cases d <;> simp_all [segCmp]
    · exact (cmpList_lawful cmpChar_lawful).lt_trans h1 h2
    · exact cmpNat_lawful.lt_trans h1 h2
  lt_of_lt_of_eq {a b d} h1 h2 := by
    cases a <;> cases b <;> cases d <;> simp_all [segCmp]
    · exact (cmpList_lawful cmpChar_lawful).lt_of_lt_of_eq h1 h2
    · exact cmpNat_lawful.lt_of_lt_of_eq h1 h2
  lt_of_eq_of_lt {a b d} h1 h2 := by
    cases a <;> cases b <;> cases d <;> simp_all [segCmp]
    · exact (cmpList_lawful cmpChar_lawful).lt_of_eq_of_lt h1 h2
    · exact cmpNat_lawful.lt_of_eq_of_lt h1 h2
  eq_trans {a b d} h1 h2 := by
    cases a <;> cases b <;> cases d <;> simp_all [segCmp]
    · exact (cmpList_lawful cmpChar_lawful).eq_trans h1 h2
    · exact cmpNat_lawful.eq_trans h1 h2

theorem cmpPackageVersion_lawful : LawfulCmp cmpPackageVersion :=
  (cmpList_lawful segCmp_lawful).comap
    (fun v : PackageVersion => versionSegments v.ver)

theorem cmpPackageRelease_lawful : LawfulCmp cmpPackageRelease :=
  LawfulCmp.then_comp
    (cmpNat_lawful.comap (fun r : PackageRelease => r.major))
    ((cmpOption_lawful cmpNat_lawful).comap (fun r : PackageRelease => r.minor))

theorem cmpFullVersion_lawful : LawfulCmp cmpFullVersion :=
  LawfulCmp.then_comp
    (cmpNat_lawful.comap (fun v : FullVersion => epochValue v.epoch))
    (LawfulCmp.then_comp
      (cmpPackageVersion_lawful.comap (fun v : FullVersion => v.pkgver))
      ((cmpOption_lawful cmpPackageRelease_lawful).comap
        (fun v : FullVersion => v.pkgrel)))

theorem digitVal_digitChar {d : Nat} (h : d < 10) :
    digitVal (digitChar d) = d := by
  interval_cases d <;> decide

theorem isDigit_digitChar {d : Nat} (h : d < 10) :
    (digitChar d).isDigit = true := by
  interval_cases d <;> decide

theorem natToCharsAux_eq (fuel : Nat) :
    ∀ n, 0 < n → n < 10 ^ fuel → ∀ acc,
      natToCharsAux fuel n acc =
        ((Nat.digits 10 n).reverse.map digitChar) ++ acc := by
  induction fuel with
  | zero => intro n h1 h2 acc; simp at h2; omega
  | succ fuel ih =>
    intro n h1 h2 acc
    by_cases h : n < 10
    · show (if n < 10 then _ else _) = _
      rw [if_pos h, Nat.digits_def' (by norm_num : 1 < 10) h1,
        Nat.div_eq_of_lt h, Nat.digits_zero, Nat.mod_eq_of_lt h]
      simp
    · show (if n < 10 then _ else _) = _
      rw [if_neg h]
      have hd : 0 < n / 10 := Nat.div_pos (le_of_not_lt h) (by norm_num)
      have hlt : n / 10 < 10 ^ fuel := by
        rw [Nat.div_lt_iff_lt_mul (by norm_num)]
        calc n < 10 ^ (fuel + 1) := h2
          _ = 10 ^ fuel * 10 := by ring
      rw [ih (n / 10) hd hlt,
        Nat.digits_def' (by norm_num : 1 < 10) h1]
      simp [List.append_assoc]

/-- `renderNat` on a positive number produces exactly the decimal digits,
most significant first. -/
theorem renderNat_eq {n : Nat} (h : 0 < n) :
    renderNat n = (Nat.digits 10 n).reverse.map digitChar := by
  have hbound : n < 10 ^ (n + 1) := by
    clear h
    induction n with
    | zero => norm_num
    | succ k ih =>
      have h2 : 0 < 10 ^ (k + 1) := pow_pos (by norm_num) _
      calc k + 1 ≤ 10 ^ (k + 1) := ih
        _ < 10 ^ (k + 1 + 1) := by rw [pow_succ]; omega
  rw [renderNat, natToCharsAux_eq (n + 1) n h hbound, List.append_nil]

theorem foldl_digits_horner (L : List Nat) :
    ∀ acc : Nat, L.foldl (fun n d => 10 * n + d) acc
      = acc * 10 ^ L.length + Nat.ofDigits 10 L.reverse := by
  induction L with
  | nil => intro acc; simp [Nat.ofDigits]
  | cons d L ih =>
    intro acc
    simp only [List.foldl_cons, List.length_cons, List.reverse_cons]
    rw [ih, Nat.ofDigits_append, Nat.ofDigits_singleton,
      List.length_reverse]
    ring

theorem foldl_digitChar (L : List Nat) (h : ∀ d ∈ L, d < 10) :
    ∀ acc : Nat, (L.map digitChar).foldl (fun n ch => 10 * n + digitVal ch) acc
      = L.foldl (fun n d => 10 * n + d) acc := by
  induction L with
  | nil => intro acc; rfl
  | cons d L ih =>
    intro acc
    simp only [List.map_cons, List.foldl_cons]
    rw [digitVal_digitChar (h d (by simp))]
    exact ih (fun x hx => h x (by simp [hx])) _

/-- Decimal round trip: parsing the canonical rendering of `n` yields
`n` back. -/
theorem parseNatChars_renderNat (n : Nat) :
    parseNatChars (renderNat n) = some n := by
  by_cases h0 : n = 0
  · subst h0; decide
  · have hpos : 0 < n := Nat.pos_of_ne_zero h0
    rw [renderNat_eq hpos]
    have hdigL : ∀ d ∈ (Nat.digits 10 n).reverse, d < 10 := by
      intro d hd
      exact Nat.digits_lt_base (by norm_num) (List.mem_reverse.mp hd)
    have hne : (Nat.digits 10 n).reverse ≠ [] := by
      simp [Nat.digits_ne_nil_iff_ne_zero, h0]
    unfold parseNatChars
    rw [if_neg (by simp [Nat.digits_ne_nil_iff_ne_zero, h0]), if_pos]
    · rw [foldl_digitChar _ hdigL, foldl_digits_horner]
      simp [Nat.ofDigits_digits]
    · rw [List.all_eq_true]
      intro ch hch
      rw [List.mem_map] at hch
      obtain ⟨d, hd, rfl⟩ := hch
      exact isDigit_digitChar (hdigL d hd)

theorem splitDot_no_dot {A : List Char} (h : '.' ∉ A) :
    splitDot A = (A, none) := by
  induction A with
  | nil => rfl
  | cons ch rest ih =>
    have hch : ¬ch = '.' := fun hc => h (by simp [hc])
    have hrest : '.' ∉ rest := fun hm => h (by simp [hm])
    simp [splitDot, hch, ih hrest]

theorem splitDot_append {A B : List Char} (h : '.' ∉ A) :
    splitDot (A ++ '.' :: B) = (A, some B) := by
  induction A with
  | nil => simp [splitDot]
  | cons ch rest ih =>
    have hch : ¬ch = '.' := fun hc => h (by simp [hc])
    have hrest : '.' ∉ rest := fun hm => h (by simp [hm])
    simp [splitDot, hch, ih hrest]

theorem dot_not_mem_renderNat (n : Nat) : '.' ∉ renderNat n := by
  by_cases h0 : n = 0
  · subst h0; decide
  · rw [renderNat_eq (Nat.pos_of_ne_zero h0)]
    intro hmem
    rw [List.mem_map] at hmem
    obtain ⟨d, hd, hEq⟩ := hmem
    have hd10 : d < 10 := Nat.digits_lt_base (by norm_num)
      (List.mem_reverse.mp hd)
    interval_cases d <;> exact absurd hEq (by decide)

theorem string_mk_data (s : String) : String.mk s.data = s := rfl

theorem string_data_mk (l : List Char) : (String.mk l).data = l := rfl

/-! ### Claim theorems -/

/-- C1: for a SRCINFO document whose `pkgbase` declares `arch = x86_64`,
`depends = default_dep` and `depends_x86_64 = arch_default_dep`, and
whose `pkgname` block declares `depends = overridden` with no
architecture suffix, the merged package for x86_64 has dependency list
`["overridden", "arch_default_dep"]`: an override list replaces the
base's unsuffixed list wholesale, while architecture-suffixed entries are
appended on top of the resolved unsuffixed list, never replacing it. -/
theorem C1_override_replaces_arch_appends :
    mergedDependsOf fixtureC1 "example" .x86_64
      = .ok ["overridden", "arch_default_dep"]
    ∧ (∀ ov baseL addL : List String,
        mergeListField (some ov) baseL addL = ov ++ addL)
    ∧ (∀ baseL addL : List String,
        mergeListField none baseL addL = baseL ++ addL) :=
  ⟨rfl, fun _ _ _ => rfl, fun _ _ => rfl⟩

/-- C2: full-version comparison over `(Epoch?, PackageVersion,
PackageRelease?)` tuples is a strict total order: it is reflexive at
`eq`, oriented (`a > b` exactly when `b < a`), for any two tuples exactly
one of `<`, `=`, `>` holds, and `<` is transitive.  Concretely,
`PackageVersion "1.2.3" < PackageVersion "1.2.4"`, and a tuple with
`Epoch 1` outranks any tuple with no epoch regardless of its version. -/
theorem C2_full_version_order_strict_total :
    (∀ a : FullVersion, cmpFullVersion a a = .eq)
    ∧ (∀ a b : FullVersion,
        cmpFullVersion a b = .gt ↔ cmpFullVersion b a = .lt)
    ∧ (∀ a b : FullVersion,
        (cmpFullVersion a b = .lt ∨ cmpFullVersion a b = .eq
          ∨ cmpFullVersion b a = .lt)
        ∧ (cmpFullVersion a b = .lt →
            cmpFullVersion a b ≠ .eq ∧ cmpFullVersion b a ≠ .lt)
        ∧ (cmpFullVersion a b = .eq → cmpFullVersion b a ≠ .lt))
    ∧ (∀ a b c : FullVersion, cmpFullVersion a b = .lt →
        cmpFullVersion b c = .lt → cmpFullVersion a c = .lt)
    ∧ cmpPackageVersion ⟨"1.2.3"⟩ ⟨"1.2.4"⟩ = .lt
    ∧ (∀ (v w : PackageVersion) (r t : Option PackageRelease),
        cmpFullVersion ⟨some ⟨1⟩, v, r⟩ ⟨none, w, t⟩ = .gt) := by
  have L := cmpFullVersion_lawful
  refine ⟨L.refl, fun a b => L.gt_iff a b, ?_,
    fun a b c h1 h2 => L.lt_trans h1 h2, by decide, fun v w r t => rfl⟩
  intro a b
  refine ⟨?_, ?_, ?_⟩
  · cases h : cmpFullVersion a b with
    | lt => exact Or.inl rfl
    | eq => exact Or.inr (Or.inl rfl)
    | gt => exact Or.inr (Or.inr ((L.gt_iff a b).mp h))
  · intro hlt
    refine ⟨by simp [hlt], fun hba => ?_⟩
    have hd := L.lt_trans hlt hba
    have hr := L.refl a
    rw [hd] at hr
    exact Ordering.noConfusion hr
  · intro heq hba
    have hd := L.lt_of_lt_of_eq hba heq
    have hr := L.refl b
    rw [hd] at hr
    exact Ordering.noConfusion hr

/-- Witness for C2: transitivity applied at the concrete numeric chain
`2 < 3 < 10` (numeric segments compare by value, not lexically). -/
theorem C2_full_version_order_strict_total_witness :
    cmpFullVersion ⟨none, ⟨"2"⟩, none⟩ ⟨none, ⟨"10"⟩, none⟩ = .lt :=
  C2_full_version_order_strict_total.2.2.2.1
    ⟨none, ⟨"2"⟩, none⟩ ⟨none, ⟨"3"⟩, none⟩ ⟨none, ⟨"10"⟩, none⟩
    (by decide) (by decide)

/-- C3 counterexample: the failure sites do not raise one single error
type — `Epoch(0)` raises the Python built-in `ValueError` while
`PackageVersion` validation raises `ALPMError`. -/
theorem C3_not_single_error_type :
    raisedException .epochNonPositive
      ≠ raisedException .packageVersionInvalid := by decide

/-- C3 (amended): scalar validation failures raise `ALPMError` and
SRCINFO parse failures raise `SourceInfoError`, except that `Epoch` and
`ElfArchitectureFormat` failures surface as the Python built-in
`ValueError`; so callers distinguish categories by exception class, and
not every ALPM-domain failure is a variant of a single error type. -/
theorem C3_exception_classes :
    (∀ f : AlpmFailure, raisedException f = .valueError ↔
      (f = .epochNonPositive ∨ f = .elfArchitectureFormatUnknown))
    ∧ raisedException .srcinfoParseFailure = .sourceInfoError
    ∧ (∀ f : AlpmFailure, f ≠ .epochNonPositive →
        f ≠ .elfArchitectureFormatUnknown → f ≠ .srcinfoParseFailure →
        raisedException f = .alpmError) := by decide

/-- Witness for C3 (amended): `PackageVersion` validation failure raises
`ALPMError`. -/
theorem C3_exception_classes_witness :
    raisedException .packageVersionInvalid = .alpmError :=
  C3_exception_classes.2.2 .packageVersionInvalid
    (by decide) (by decide) (by decide)

/-- C5: `PackageRelease` holds a non-negative major and optional minor,
formats as `"major"` or `"major.minor"` (`1` ↦ `"1"`, `(1,1)` ↦ `"1.1"`,
`from_str "2.5"` ↦ major 2 minor 5), and compares major-then-minor with
an absent minor sorting strictly below any present minor (including 0)
at equal major. -/
theorem C5_package_release :
    renderPackageRelease ⟨1, none⟩ = "1"
    ∧ renderPackageRelease ⟨1, some 1⟩ = "1.1"
    ∧ parsePackageRelease "2.5" = .ok ⟨2, some 5⟩
    ∧ (∀ m k : Nat, cmpPackageRelease ⟨m, none⟩ ⟨m, some k⟩ = .lt)
    ∧ (∀ r r' : PackageRelease, r.major < r'.major →
        cmpPackageRelease r r' = .lt) := by
  refine ⟨by decide, by decide, by decide, ?_, ?_⟩
  · intro m k
    show (cmpNat m m).then (cmpOption cmpNat none (some k)) = .lt
    rw [cmpNat_eq_eq.mpr rfl]
    rfl
  · intro r r' h
    show (cmpNat r.major r'.major).then _ = .lt
    rw [cmpNat_eq_lt.mpr h]
    rfl

/-- Witness for C5: major dominance at `1 < 2`. -/
theorem C5_package_release_witness :
    cmpPackageRelease ⟨1, none⟩ ⟨2, some 3⟩ = .lt :=
  C5_package_release.2.2.2.2 ⟨1, none⟩ ⟨2, some 3⟩ (by decide)

/-- C9: `ElfArchitectureFormat.from_str` accepts exactly the strings
`"32"` and `"64"` (yielding the 32-bit and 64-bit variants); every other
input, including `""`, `" "` and `"16"`, fails. -/
theorem C9_elf_architecture_format :
    parseElfArchitectureFormat "32" = .ok .bit32
    ∧ parseElfArchitectureFormat "64" = .ok .bit64
    ∧ (∀ s : String, s ≠ "32" → s ≠ "64" →
        parseElfArchitectureFormat s = .error .scalarValidation)
    ∧ parseElfArchitectureFormat "" = .error .scalarValidation
    ∧ parseElfArchitectureFormat " " = .error .scalarValidation
    ∧ parseElfArchitectureFormat "16" = .error .scalarValidation := by
  refine ⟨rfl, rfl, ?_, rfl, rfl, rfl⟩
  intro s h1 h2
  unfold parseElfArchitectureFormat
  rw [if_neg h1, if_neg h2]

/-- Witness for C9: `"16"` is rejected through the general clause. -/
theorem C9_elf_architecture_format_witness :
    parseElfArchitectureFormat "16" = .error .scalarValidation :=
  C9_elf_architecture_format.2.2.1 "16" (by decide) (by decide)

theorem parseEpoch_renderNat {n : Nat} (h : 0 < n) :
    parseEpoch (String.mk (renderNat n)) = .ok ⟨n⟩ := by
  obtain ⟨m, rfl⟩ : ∃ m, n = m.succ := ⟨n - 1, by omega⟩
  simp only [parseEpoch, string_data_mk, parseNatChars_renderNat]

theorem renderOption_of_parse {s : String} {name : String} {neg : Bool}
    (hname : name = bareNameOf s) (hneg : neg = isNegated s) :
    (if !neg then name else String.mk ('!' :: name.data)) = s := by
  subst hname hneg
  unfold bareNameOf isNegated
  cases hs : s.data with
  | nil => simp
  | cons ch rest =>
    by_cases hch : ch = '!'
    · subst hch
      conv_rhs => rw [← string_mk_data s, hs]
      simp [string_data_mk]
    · simp [hch]

/-- C4: for every valid canonical-form string accepted by a scalar type
(`PackageVersion`, `Epoch`, `PackageRelease`, `RelativePath`,
`BuildEnvironmentOption`, `PackageOption`), rendering the parsed value
reproduces the string exactly.  For the types whose canonical strings are
exactly the renders of their values (`Epoch`, `PackageRelease`) the round
trip is stated as parse-after-render. -/
theorem C4_canonical_round_trip :
    (∀ s : String, validPackageVersionChars s.data = true →
      ∃ v, parsePackageVersion s = .ok v ∧ renderPackageVersion v = s)
    ∧ (∀ n : Nat, 0 < n → parseEpoch (renderEpoch ⟨n⟩) = .ok ⟨n⟩)
    ∧ (∀ r : PackageRelease,
        parsePackageRelease (renderPackageRelease r) = .ok r)
    ∧ (∀ s : String, s.data.head? ≠ some '/' →
        ∃ p, parseRelativePath s = .ok p ∧ renderRelativePath p = s)
    ∧ (∀ (s : String) (o : BuildEnvironmentOption),
        parseBuildEnvOption s = .ok o → renderBuildEnvOption o = s)
    ∧ (∀ (s : String) (o : PackageOption),
        parsePackageOption s = .ok o → renderPackageOption o = s) := by
  refine ⟨?_, ?_, ?_, ?_, ?_, ?_⟩
  · intro s h
    refine ⟨⟨s⟩, ?_, rfl⟩
    unfold parsePackageVersion
    rw [if_pos h]
  · intro n hn
    exact parseEpoch_renderNat hn
  · intro r
    obtain ⟨major, minor⟩ := r
    have h1 := dot_not_mem_renderNat major
    cases minor with
    | none =>
      simp only [renderPackageRelease, parsePackageRelease, string_data_mk,
        splitDot_no_dot h1, parseNatChars_renderNat]
    | some k =>
      simp only [renderPackageRelease, parsePackageRelease, string_data_mk,
        splitDot_append h1, parseNatChars_renderNat]
  · intro s h
    refine ⟨⟨s⟩, ?_, rfl⟩
    unfold parseRelativePath
    split
    · rename_i rest heq
      exact absurd (by rw [heq]; rfl) h
    · rfl
  · intro s o h
    unfold parseBuildEnvOption at h
    by_cases hmem : bareNameOf s ∈ buildEnvOptionNames
    · rw [if_pos hmem] at h
      injection h with h
      subst h
      exact renderOption_of_parse rfl rfl
    · rw [if_neg hmem] at h
      exact Except.noConfusion h
  · intro s o h
    unfold parsePackageOption at h
    by_cases hmem : bareNameOf s ∈ packageOptionNames
    · rw [if_pos hmem] at h
      injection h with h
      subst h
      exact renderOption_of_parse rfl rfl
    · rw [if_neg hmem] at h
      exact Except.noConfusion h

/-- Witness for C4: the epoch round trip at `42`. -/
theorem C4_canonical_round_trip_witness :
    parseEpoch (renderEpoch ⟨42⟩) = .ok ⟨42⟩ :=
  C4_canonical_round_trip.2.1 42 (by decide)

/-- C7: each name of the closed `BuildEnvironmentOption` and
`PackageOption` sets constructs with `on = true` from the bare name and
`on = false` with the bare `name` from the `!`-prefixed form; a name in
neither set fails; and `parse_makepkg_option` returns the variant whose
set contains the bare name (`"strip"` yields a `PackageOption`), failing
when neither set matches. -/
theorem C7_makepkg_options :
    (∀ n ∈ buildEnvOptionNames,
      parseBuildEnvOption n = .ok ⟨n, true⟩
      ∧ parseBuildEnvOption (String.mk ('!' :: n.data)) = .ok ⟨n, false⟩)
    ∧ (∀ n ∈ packageOptionNames,
      parsePackageOption n = .ok ⟨n, true⟩
      ∧ parsePackageOption (String.mk ('!' :: n.data)) = .ok ⟨n, false⟩)
    ∧ (∀ s : String, bareNameOf s ∉ buildEnvOptionNames →
        parseBuildEnvOption s = .error .scalarValidation)
    ∧ (∀ s : String, bareNameOf s ∉ packageOptionNames →
        parsePackageOption s = .error .scalarValidation)
    ∧ (∀ s : String, bareNameOf s ∉ buildEnvOptionNames →
        bareNameOf s ∉ packageOptionNames →
        parseMakepkgOption s = .error .scalarValidation)
    ∧ (∀ s : String, bareNameOf s ∈ packageOptionNames →
        parseMakepkgOption s = .ok (.package ⟨bareNameOf s, !isNegated s⟩))
    ∧ (∀ s : String, bareNameOf s ∈ buildEnvOptionNames →
        parseMakepkgOption s = .ok (.buildEnv ⟨bareNameOf s, !isNegated s⟩))
    ∧ parseMakepkgOption "strip" = .ok (.package ⟨"strip", true⟩)
    ∧ parseBuildEnvOption "invalid" = .error .scalarValidation
    ∧ parseMakepkgOption "invalid" = .error .scalarValidation := by
  have hdisj : ∀ x ∈ packageOptionNames, x ∉ buildEnvOptionNames := by decide
  refine ⟨by decide, by decide, ?_, ?_, ?_, ?_, ?_, by decide, by decide,
    by decide⟩
  · intro s h
    unfold parseBuildEnvOption
    rw [if_neg h]
  · intro s h
    unfold parsePackageOption
    rw [if_neg h]
  · intro s h1 h2
    unfold parseMakepkgOption parseBuildEnvOption parsePackageOption
    rw [if_neg h1, if_neg h2]
  · intro s h
    unfold parseMakepkgOption parseBuildEnvOption parsePackageOption
    rw [if_neg (hdisj _ h), if_pos h]
  · intro s h
    unfold parseMakepkgOption parseBuildEnvOption
    rw [if_pos h]

/-- Witness for C7: `"strip"` resolves through the package-variant
clause. -/
theorem C7_makepkg_options_witness :
    parseMakepkgOption "strip"
      = .ok (.package ⟨bareNameOf "strip", !isNegated "strip"⟩) :=
  C7_makepkg_options.2.2.2.2.2.1 "strip" (by decide)

/-- C8: every string violating a type's leading-character rule — the
empty string or a leading `.`, `_` or `+` for `PackageVersion`, a leading
`/` for `RelativePath` — fails with a scalar validation error. -/
theorem C8_leading_char_rejection :
    (∀ s : String,
      s.data.head? = some '.' ∨ s.data.head? = some '_'
        ∨ s.data.head? = some '+' ∨ s.data = [] →
      parsePackageVersion s = .error .scalarValidation)
    ∧ (∀ s : String, s.data.head? = some '/' →
        parseRelativePath s = .error .scalarValidation) := by
  constructor
  · intro s h
    have hv : validPackageVersionChars s.data = false := by
      cases hs : s.data with
      | nil => rfl
      | cons ch rest =>
        rw [hs] at h
        simp only [List.head?_cons, Option.some.injEq, List.cons_ne_nil,
          or_false] at h
        have hna : ch.isAlphanum = false := by
          rcases h with h | h | h <;> subst h <;> decide
        simp [validPackageVersionChars, hna]
    unfold parsePackageVersion
    rw [if_neg (by simp [hv])]
  · intro s h
    unfold parseRelativePath
    cases hs : s.data with
    | nil => rw [hs] at h; exact absurd h (by simp)
    | cons ch rest =>
      rw [hs] at h
      simp only [List.head?_cons, Option.some.injEq] at h
      subst h
      rfl

/-- Witness for C8: `".1.2.3"` and `"/absolute/path"` are rejected. -/
theorem C8_leading_char_rejection_witness :
    parsePackageVersion ".1.2.3" = .error .scalarValidation
    ∧ parseRelativePath "/absolute/path" = .error .scalarValidation :=
  ⟨C8_leading_char_rejection.1 ".1.2.3" (by decide),
    C8_leading_char_rejection.2 "/absolute/path" (by decide)⟩

theorem except_error_eq {α : Type} {x e : ErrorKind}
    (h : (Except.error x : Except ErrorKind α) = .error e) : e = x := by
  injection h with h
  exact h.symm

theorem tokenizeLine_error {l : List Char} {e : ErrorKind}
    (h : tokenizeLine l = .error e) : e = .parseError := by
  unfold tokenizeLine at h
  split at h
  · exact Except.noConfusion h
  · exact Except.noConfusion h
  · split at h
    · exact except_error_eq h
    · split at h
      · exact except_error_eq h
      · exact Except.noConfusion h

theorem tokenizeAll_error {ls : List (List Char)} {e : ErrorKind}
    (h : tokenizeAll ls = .error e) : e = .parseError := by
  induction ls generalizing e with
  | nil => exact Except.noConfusion h
  | cons l rest ih =>
    unfold tokenizeAll at h
    split at h
    · rename_i e' he
      rw [except_error_eq h]
      exact tokenizeLine_error he
    · split at h
      · rename_i e' he
        rw [except_error_eq h]
        exact ih he
      · exact Except.noConfusion h

theorem tokenizeAll_mem {ls : List (List Char)} {toks : List LineTok}
    (h : tokenizeAll ls = .ok toks) :
    ∀ t ∈ toks, ∃ l ∈ ls, tokenizeLine l = .ok t := by
  induction ls generalizing toks with
  | nil =>
    injection h with h
    subst h
    simp
  | cons l rest ih =>
    unfold tokenizeAll at h
    split at h
    · exact Except.noConfusion h
    · rename_i t ht
      split at h
      · exact Except.noConfusion h
      · rename_i ts hts
        injection h with h
        subst h
        intro x hx
        rcases List.mem_cons.mp hx with rfl | hx
        · exact ⟨l, List.mem_cons_self _ _, ht⟩
        · obtain ⟨l2, hl2, h2⟩ := ih hts x hx
          exact ⟨l2, List.mem_cons_of_mem _ hl2, h2⟩

theorem startParse_no_pkgbase {toks : List LineTok}
    (h : ∀ t ∈ toks, isPkgbaseTok t = false) :
    startParse toks = .error .parseError := by
  induction toks with
  | nil => rfl
  | cons t rest ih =>
    cases t with
    | blank => exact ih (fun x hx => h x (List.mem_cons_of_mem _ hx))
    | kv k a v =>
      have ht : (decide (k = "pkgbase") && a.isNone) = false :=
        h _ (List.mem_cons_self _ _)
      unfold startParse
      rw [if_neg (by rw [ht]; exact Bool.false_ne_true)]

/-- C6: SRCINFO text that contains no `pkgbase` header line fails to
parse with a `parseError` — never a partially constructed document — and
in particular the literal input `"some invalid content"` fails. -/
theorem C6_missing_pkgbase_fails :
    (∀ text : String,
      (∀ l ∈ splitOnChar '\n' text.data, lineIsPkgbase l = false) →
      parseSourceInfo text = .error .parseError)
    ∧ parseSourceInfo "some invalid content" = .error .parseError := by
  refine ⟨?_, rfl⟩
  intro text h
  unfold parseSourceInfo
  cases htok : tokenizeAll (splitOnChar '\n' text.data) with
  | error e =>
    show Except.error e = Except.error ErrorKind.parseError
    rw [tokenizeAll_error htok]
  | ok toks =>
    show startParse toks = Except.error ErrorKind.parseError
    apply startParse_no_pkgbase
    intro t ht
    obtain ⟨l, hl, hline⟩ := tokenizeAll_mem htok t ht
    have hx := h l hl
    unfold lineIsPkgbase at hx
    rw [hline] at hx
    exact hx

/-- Witness for C6: the literal `"some invalid content"` (no `pkgbase =`
line present) through the general clause. -/
theorem C6_missing_pkgbase_fails_witness :
    parseSourceInfo "some invalid content" = .error .parseError :=
  C6_missing_pkgbase_fails.1 "some invalid content" (by decide)

theorem parsePackageVersion_error {s : String} {e : ErrorKind}
    (h : parsePackageVersion s = .error e) : e = .scalarValidation := by
  unfold parsePackageVersion at h
  split at h
  · exact Except.noConfusion h
  · exact except_error_eq h

theorem parseEpoch_error {s : String} {e : ErrorKind}
    (h : parseEpoch s = .error e) : e = .scalarValidation := by
  unfold parseEpoch at h
  split at h
  · exact except_error_eq h
  · exact except_error_eq h
  · exact Except.noConfusion h

theorem parsePackageRelease_error {s : String} {e : ErrorKind}
    (h : parsePackageRelease s = .error e) : e = .scalarValidation := by
  unfold parsePackageRelease at h
  split at h
  · split at h
    · exact Except.noConfusion h
    · exact except_error_eq h
  · split at h
    · exact Except.noConfusion h
    · exact except_error_eq h

theorem parseRelativePath_error {s : String} {e : ErrorKind}
    (h : parseRelativePath s = .error e) : e = .scalarValidation := by
  unfold parseRelativePath at h
  split at h
  · exact except_error_eq h
  · exact Except.noConfusion h

theorem applyBaseKey_error {b : PackageBase} {k : String}
    {a : Option Architecture} {v : String} {e : ErrorKind}
    (h : applyBaseKey b k a v = .error e) : e = .scalarValidation := by
  unfold applyBaseKey at h
  split at h
  · split_ifs at h <;>
    first
      | exact Except.noConfusion h
      | (split at h <;>
         first
           | exact Except.noConfusion h
           | exact except_error_eq h
           | (rename_i he
              rw [except_error_eq h]
              first
                | exact parsePackageVersion_error he
                | exact parsePackageRelease_error he
                | exact parseEpoch_error he
                | exact parseRelativePath_error he))
  · split at h <;> exact Except.noConfusion h

theorem applyOverrideKey_error {p : PackageOverride} {k : String}
    {a : Option Architecture} {v : String} {e : ErrorKind}
    (h : applyOverrideKey p k a v = .error e) : e = .scalarValidation := by
  unfold applyOverrideKey at h
  split at h
  · split_ifs at h <;>
    first
      | exact Except.noConfusion h
      | (split at h <;>
         first
           | exact Except.noConfusion h
           | exact except_error_eq h
           | (rename_i he
              rw [except_error_eq h]
              exact parseRelativePath_error he))
  · split at h <;> exact Except.noConfusion h

theorem finishParse_error {b : PackageBase} {pkgs : List PackageOverride}
    {e : ErrorKind} (h : finishParse b pkgs = .error e) : e = .parseError := by
  unfold finishParse at h
  split at h
  · exact Except.noConfusion h
  · exact except_error_eq h

theorem parsePkgLines_error {b : PackageBase} {toks : List LineTok}
    {done : List PackageOverride} {cur : PackageOverride} {e : ErrorKind}
    (h : parsePkgLines b done cur toks = .error e) :
    e = .parseError ∨ e = .scalarValidation := by
  induction toks generalizing done cur e with
  | nil => exact Or.inl (finishParse_error h)
  | cons t rest ih =>
    cases t with
    | blank => exact ih h
    | kv k a v =>
      unfold parsePkgLines at h
      split at h
      · exact ih h
      · split at h
        · rename_i he
          rw [except_error_eq h]
          exact Or.inr (applyOverrideKey_error he)
        · exact ih h

theorem parseBaseLines_error {b : PackageBase} {toks : List LineTok}
    {e : ErrorKind} (h : parseBaseLines b toks = .error e) :
    e = .parseError ∨ e = .scalarValidation := by
  induction toks generalizing b e with
  | nil => exact Or.inl (finishParse_error h)
  | cons t rest ih =>
    cases t with
    | blank => exact ih h
    | kv k a v =>
      unfold parseBaseLines at h
      split at h
      · exact parsePkgLines_error h
      · split at h
        · rename_i he
          rw [except_error_eq h]
          exact Or.inr (applyBaseKey_error he)
        · exact ih h

theorem startParse_error {toks : List LineTok} {e : ErrorKind}
    (h : startParse toks = .error e) :
    e = .parseError ∨ e = .scalarValidation := by
  induction toks generalizing e with
  | nil => exact Or.inl (except_error_eq h)
  | cons t rest ih =>
    cases t with
    | blank => exact ih h
    | kv k a v =>
      unfold startParse at h
      split at h
      · exact parseBaseLines_error h
      · exact Or.inl (except_error_eq h)

theorem parseSourceInfo_error {text : String} {e : ErrorKind}
    (h : parseSourceInfo text = .error e) :
    e = .parseError ∨ e = .scalarValidation := by
  unfold parseSourceInfo at h
  split at h
  · rename_i e2 he
    rw [except_error_eq h]
    exact Or.inl (tokenizeAll_error he)
  · exact startParse_error h

/-- C10: when `from_file` or `from_pkgbuild` is given a readable file
whose content fails to parse, the failure is the same parse-path error as
construction from text — never an `ioError`; the `ioError` category is
reserved for unreadable files. -/
theorem C10_parse_failure_not_io :
    (∀ (text : String) (e : ErrorKind), parseSourceInfo text = .error e →
      sourceInfoFromFile (some text) = .error e ∧ e ≠ .ioError)
    ∧ (∀ (evalScript : String → String) (text : String) (e : ErrorKind),
        parseSourceInfo (evalScript text) = .error e →
        sourceInfoFromPkgbuild (some text) evalScript = .error e
          ∧ e ≠ .ioError)
    ∧ sourceInfoFromFile none = .error .ioError
    ∧ (∀ f : String → String,
        sourceInfoFromPkgbuild none f = .error .ioError) := by
  refine ⟨?_, ?_, rfl, fun f => rfl⟩
  · intro text e h
    refine ⟨h, ?_⟩
    rcases parseSourceInfo_error h with rfl | rfl <;> decide
  · intro evalScript text e h
    refine ⟨h, ?_⟩
    rcases parseSourceInfo_error h with rfl | rfl <;> decide

/-- Witness for C10: the invalid one-line file content through the
general clause. -/
theorem C10_parse_failure_not_io_witness :
    sourceInfoFromFile (some "some invalid content")
      = .error .parseError ∧ ErrorKind.parseError ≠ .ioError :=
  C10_parse_failure_not_io.1 "some invalid content" .parseError rfl

end Alpm

